import Mathlib

/-!
Verification of the tag-reconciliation and status-probe core of the
terraform-provider-aws repository.

The embedded code:

* `UpdateTags`, `Tags`, `KeyValueTags` from the generated service tags file
  (`internal/service/.../tags_gen.go`, embedded in
  `src/internal/service/firehose/status.go` lines 43-135);
* `statusDeliveryStream` and `statusDeliveryStreamEncryptionConfiguration`
  from `src/internal/service/firehose/status.go` lines 12-42;
* the `tftags.KeyValueTags` operations (`New`, `Map`, `Keys`, `Removed`,
  `Updated`, `IgnoreAws`) live in `internal/tags`, which is not part of the
  source sample; they are modelled from the spec (see their doc comments);
* the generic status poll loop lives in the external plugin SDK; it is
  modelled from the spec.

A Go `map[string]string` is embedded as an association list with pairwise
distinct keys (`TagSet` together with the well-formedness predicate
`TagSet.WF`); map assignment is `TagSet.mapInsert`, map indexing is
`TagSet.tlookup`.
-/

/-- A tag set: unordered mapping from tag key to tag value, embedded as an
association list.  The Go representation is `map[string]string`. -/
abbrev TagSet := List (String × String)

namespace TagSet

/-- Go map indexing `m[k]`: the value of the first entry with key `k`. -/
def tlookup : TagSet → String → Option String
  | [], _ => none
  | (k', v) :: t, k => if k' = k then some v else tlookup t k

/-- Go `_, ok := m[k]` membership test. -/
def containsKey : TagSet → String → Bool
  | [], _ => false
  | (k', _) :: t, k => if k' = k then true else containsKey t k

/-- Modelled from the spec: the key list of a TagSet (`KeyValueTags.Keys`,
from `internal/tags`, not in the source sample; the spec treats a TagSet as
a mapping whose key set is `keys(t)`). -/
def Keys (t : TagSet) : List String := t.map Prod.fst

/-- The TagSet invariant from the spec: keys are unique within a set. -/
def WF (t : TagSet) : Prop := t.Keys.Nodup

/-- Go map assignment `m[k] = v`: overwrite any entry with key `k`. -/
def mapInsert (m : TagSet) (k v : String) : TagSet :=
  (m.filter fun kv => decide (kv.1 ≠ k)) ++ [(k, v)]

/-- Modelled from the spec: `tftags.New` (from `internal/tags`, not in the
source sample) builds a TagSet from raw key/value data as a Go map literal
would, later entries overwriting earlier ones. -/
def New (l : List (String × String)) : TagSet :=
  l.foldl (fun m kv => m.mapInsert kv.1 kv.2) []

/-- Modelled from the spec: the reserved internal/automation key test used
by `KeyValueTags.IgnoreAws` — a key is reserved when it carries the fixed
namespace `aws:` at its front (`strings.HasPrefix(k, "aws:")`). -/
def awsReserved (k : String) : Bool := "aws:".data.isPrefixOf k.data

/-- Modelled from the spec: `KeyValueTags.Removed` (from `internal/tags`,
not in the source sample) — `Removed = keys(old) - keys(new)`, returned as
the entries of `old` whose key is absent from `new`. -/
def Removed (old new : TagSet) : TagSet :=
  old.filter fun kv => !(new.containsKey kv.1)

/-- Modelled from the spec: `KeyValueTags.Updated` (from `internal/tags`,
not in the source sample) — the entries of `new` whose key is absent from
`old` or mapped by `old` to a different value. -/
def Updated (old new : TagSet) : TagSet :=
  new.filter fun kv => !(old.tlookup kv.1 == some kv.2)

/-- Modelled from the spec: `KeyValueTags.IgnoreAws` (from `internal/tags`,
not in the source sample) — the filtered view that excludes internally
reserved key namespaces. -/
def IgnoreAws (t : TagSet) : TagSet :=
  t.filter fun kv => !(awsReserved kv.1)

/-- Go `tags.Map()`: the underlying `map[string]string` of a TagSet. -/
def toMap (t : TagSet) : List (String × String) := t

instance (t : TagSet) : Decidable (WF t) := List.nodupDecidable _

/-- Upsert every pair of `pairs` into `store`, in order (the Go loop
`for k, v := range pairs { store[k] = v }`). -/
def upsertAll (store pairs : TagSet) : TagSet :=
  pairs.foldl (fun s kv => s.mapInsert kv.1 kv.2) store

end TagSet

/-- The remote calls `UpdateTags` can issue: `conn.UntagResource` carrying a
key list, and `conn.TagResource` carrying key/value pairs. -/
inductive RemoteCall where
  | untagCall (identifier : String) (keys : List String)
  | tagCall (identifier : String) (pairs : TagSet)
deriving DecidableEq, Repr

/-- The phase-tagged reconciliation failures built by `UpdateTags` with
`fmt.Errorf`, wrapping the underlying transport error and carrying the
resource identifier. -/
inductive ReconcileError where
  | untagError (identifier : String) (err : String)
  | tagError (identifier : String) (err : String)
deriving DecidableEq, Repr

/-- The human-readable message of a reconciliation failure, as formatted by
the two `fmt.Errorf` calls in `UpdateTags`. -/
def ReconcileError.message : ReconcileError → String
  | .untagError identifier err =>
      "error untagging resource (" ++ identifier ++ "): " ++ err
  | .tagError identifier err =>
      "error tagging resource (" ++ identifier ++ "): " ++ err

/-- The second `if` block of `UpdateTags` (`status.go` lines 121-132): when
`oldTags.Updated(newTags)` is non-empty, issue one `TagResource` call
carrying `Tags(updatedTags.IgnoreAws())` and wrap its failure, if any, as a
tag-phase error. -/
def updateTagsTagPhase (identifier : String) (oldTags newTags : TagSet)
    (tagResult : Option String) (callsSoFar : List RemoteCall) :
    List RemoteCall × Option ReconcileError :=
  let updatedTags := oldTags.Updated newTags
  if 0 < updatedTags.length then
    let call := RemoteCall.tagCall identifier updatedTags.IgnoreAws
    match tagResult with
    | some err => (callsSoFar ++ [call], some (ReconcileError.tagError identifier err))
    | none => (callsSoFar ++ [call], none)
  else (callsSoFar, none)

/-- `UpdateTags` (`status.go` lines 104-135).  The remote connection is
embedded by its observable behaviour: `untagResult` (resp. `tagResult`) is
the transport error returned by `conn.UntagResource` (resp.
`conn.TagResource`) when that call is issued, `none` meaning success.  The
result is the list of remote calls issued, in order, together with the
returned error. -/
def UpdateTags (identifier : String) (oldTagsMap newTagsMap : List (String × String))
    (untagResult tagResult : Option String) :
    List RemoteCall × Option ReconcileError :=
  let oldTags := TagSet.New oldTagsMap
  let newTags := TagSet.New newTagsMap
  let removedTags := oldTags.Removed newTags
  if 0 < removedTags.length then
    let call := RemoteCall.untagCall identifier removedTags.IgnoreAws.Keys
    match untagResult with
    | some err => ([call], some (ReconcileError.untagError identifier err))
    | none => updateTagsTagPhase identifier oldTags newTags tagResult [call]
  else
    updateTagsTagPhase identifier oldTags newTags tagResult []

/-- The remote tag store stipulated by the convergence property: the untag
call removes exactly the given keys, the tag call upserts exactly the given
pairs. -/
def applyCall (store : TagSet) : RemoteCall → TagSet
  | .untagCall _ keys => store.filter fun kv => !(keys.contains kv.1)
  | .tagCall _ pairs => store.upsertAll pairs

/-- Run a sequence of remote calls against the stipulated remote store. -/
def applyCalls (store : TagSet) (calls : List RemoteCall) : TagSet :=
  calls.foldl applyCall store

/-- A service tag struct (`SERVICE.Tag`): `Key` and `Value` are Go string
pointers, embedded as `Option String`. -/
structure ServiceTag where
  Key : Option String
  Value : Option String
deriving DecidableEq, Repr

/-- `aws.StringValue`: dereference a Go string pointer, `nil` reading as
the empty string. -/
def StringValue (s : Option String) : String := s.getD ""

/-- `Tags` (`status.go` lines 75-88): convert a TagSet to the service
tag-list representation. -/
def Tags (tags : TagSet) : List ServiceTag :=
  tags.toMap.map fun kv => { Key := some kv.1, Value := some kv.2 }

/-- `KeyValueTags` (`status.go` lines 91-99): build a TagSet from a service
tag list, building a Go map keyed by `aws.StringValue(tag.Key)` and then
applying `tftags.New`. -/
def KeyValueTags (tags : List ServiceTag) : TagSet :=
  TagSet.New (tags.map fun tag => (StringValue tag.Key, StringValue tag.Value))

/-- Outcome of the finder operation wrapped by a status probe: the Go
`(output, err)` pair with `err` classified by `tfresource.NotFound`. -/
inductive FindResult (α : Type) where
  | found (output : α)
  | notFound
  | transportError (message : String)
deriving DecidableEq, Repr

/-- The fields of `firehose.DeliveryStreamDescription` the probe reads. -/
structure DeliveryStreamDescription where
  DeliveryStreamStatus : Option String
deriving DecidableEq, Repr

/-- The fields of `firehose.DeliveryStreamEncryptionConfiguration` the
probe reads. -/
structure DeliveryStreamEncryptionConfiguration where
  Status : Option String
deriving DecidableEq, Repr

/-- `statusDeliveryStream` (`status.go` lines 12-26): the probe built over
`finder.FindDeliveryStreamByName`.  Not-found is returned as
`(nil, "", nil)`; any other finder error is passed through; on success the
snapshot and its `DeliveryStreamStatus` label are returned. -/
def statusDeliveryStream (findResult : FindResult DeliveryStreamDescription) :
    Option DeliveryStreamDescription × String × Option String :=
  match findResult with
  | .notFound => (none, "", none)
  | .transportError e => (none, "", some e)
  | .found output => (some output, StringValue output.DeliveryStreamStatus, none)

/-- `statusDeliveryStreamEncryptionConfiguration` (`status.go` lines
28-42): the probe built over
`finder.FindDeliveryStreamEncryptionConfigurationByName`. -/
def statusDeliveryStreamEncryptionConfiguration
    (findResult : FindResult DeliveryStreamEncryptionConfiguration) :
    Option DeliveryStreamEncryptionConfiguration × String × Option String :=
  match findResult with
  | .notFound => (none, "", none)
  | .transportError e => (none, "", some e)
  | .found output => (some output, StringValue output.Status, none)

/-- Terminal outcome of the status poller, recording how many probe
invocations were made. -/
inductive PollOutcome (σ : Type) where
  | target (snapshot : Option σ) (probes : Nat)
  | failed (label : String) (probes : Nat)
  | timedOut (probes : Nat)
deriving DecidableEq, Repr

/-- Modelled from the spec: the generic status poll loop (owned by the
external plugin SDK, not in the source sample).  `probe n` is the result of
the `n`-th probe invocation `(snapshot, statusLabel, error)`; the loop
returns `failed` on a probe error or a designated failure label, `target`
with the last fetched snapshot on a target label, keeps polling otherwise,
and returns `timedOut` when the maximum number of attempts (`fuel`, the
maximum total wait divided by the poll interval) elapses while still
pending. -/
def pollLoop {σ : Type} (probe : Nat → Option σ × String × Option String)
    (targets failures : List String) : Nat → Nat → PollOutcome σ
  | 0, probes => .timedOut probes
  | fuel + 1, probes =>
    match probe probes with
    | (_, label, some _) => .failed label (probes + 1)
    | (snap, label, none) =>
      if targets.contains label then .target snap (probes + 1)
      else if failures.contains label then .failed label (probes + 1)
      else pollLoop probe targets failures fuel (probes + 1)

namespace TagSet

@[simp]
theorem tlookup_nil (k : String) : tlookup [] k = none := rfl

@[simp]
theorem tlookup_cons (k' v : String) (t : TagSet) (k : String) :
    tlookup ((k', v) :: t) k = if k' = k then some v else tlookup t k := rfl

@[simp]
theorem containsKey_nil (k : String) : containsKey [] k = false := rfl

@[simp]
theorem containsKey_cons (k' v : String) (t : TagSet) (k : String) :
    containsKey ((k', v) :: t) k = if k' = k then true else containsKey t k := rfl

theorem containsKey_iff (t : TagSet) (k : String) :
    containsKey t k = true ↔ k ∈ Keys t := by
  induction t with
  | nil => simp [Keys]
  | cons kv t ih =>
    obtain ⟨k', v⟩ := kv
    by_cases hk : k' = k <;> simp [Keys, hk, ih, Keys] <;> tauto

theorem tlookup_eq_none_iff (t : TagSet) (k : String) :
    tlookup t k = none ↔ k ∉ Keys t := by
  induction t with
  | nil => simp [Keys]
  | cons kv t ih =>
    obtain ⟨k', v⟩ := kv
    by_cases hk : k' = k <;> simp [Keys, hk, ih] <;> tauto

theorem tlookup_mem (t : TagSet) (k v : String) (h : tlookup t k = some v) :
    (k, v) ∈ t := by
  induction t with
  | nil => simp [tlookup] at h
  | cons kv t ih =>
    obtain ⟨k', v'⟩ := kv
    by_cases hk : k' = k
    · subst hk
      simp at h
      simp [h]
    · simp [hk] at h
      exact List.mem_cons_of_mem _ (ih h)

theorem tlookup_of_mem (t : TagSet) (k v : String) (hwf : WF t) (h : (k, v) ∈ t) :
    tlookup t k = some v := by
  induction t with
  | nil => simp at h
  | cons kv t ih =>
    obtain ⟨k', v'⟩ := kv
    rcases List.mem_cons.mp h with h1 | h1
    · obtain ⟨rfl, rfl⟩ := Prod.mk.injEq .. ▸ h1
      simp
    · have hk : k' ≠ k := by
        rintro rfl
        exact (List.nodup_cons.mp hwf).1 (List.mem_map.mpr ⟨(k', v), h1, rfl⟩)
      simpa [hk] using ih (List.nodup_cons.mp hwf).2 h1

theorem tlookup_filterKey (q : String → Bool) (t : TagSet) (k : String) :
    tlookup (t.filter fun kv => q kv.1) k = if q k then tlookup t k else none := by
  induction t with
  | nil => cases hq : q k <;> simp [hq]
  | cons kv t ih =>
    obtain ⟨k', v⟩ := kv
    by_cases hk : k' = k
    · subst hk
      cases hq : q k' <;> simp [List.filter_cons, hq, ih]
    · cases hq : q k' <;> simp [List.filter_cons, hq, hk, ih]

theorem keys_filter_sub (p : String × String → Bool) (t : TagSet) (k : String)
    (h : k ∈ Keys (t.filter p)) : k ∈ Keys t := by
  obtain ⟨kv, hmem, rfl⟩ := List.mem_map.mp h
  exact List.mem_map.mpr ⟨kv, (List.mem_filter.mp hmem).1, rfl⟩

theorem tlookup_filter_none (p : String × String → Bool) (t : TagSet) (k : String)
    (h : tlookup t k = none) : tlookup (t.filter p) k = none :=
  (tlookup_eq_none_iff ..).mpr fun hk =>
    (tlookup_eq_none_iff ..).mp h (keys_filter_sub p t k hk)

theorem tlookup_filter_of_wf (p : String × String → Bool) (t : TagSet) (k : String)
    (hwf : WF t) :
    tlookup (t.filter p) k =
      match tlookup t k with
      | some v => if p (k, v) then some v else none
      | none => none := by
  induction t with
  | nil => simp
  | cons kv t ih =>
    obtain ⟨k', v'⟩ := kv
    have hwf' : WF t := (List.nodup_cons.mp hwf).2
    have hk' : k' ∉ Keys t := (List.nodup_cons.mp hwf).1
    by_cases hk : k' = k
    · subst hk
      cases hp : p (k', v')
      · simp only [List.filter_cons, hp, Bool.false_eq_true, if_neg, ite_false]
        have : tlookup t k' = none := (tlookup_eq_none_iff ..).mpr hk'
        simp [tlookup_filter_none p t k' this, hp]
      · simp [List.filter_cons, hp]
    · cases hp : p (k', v') <;> simp [List.filter_cons, hp, hk, ih hwf']

theorem wf_filter (p : String × String → Bool) (t : TagSet) (hwf : WF t) :
    WF (t.filter p) :=
  ((t.filter_sublist).map Prod.fst).nodup hwf

end TagSet

namespace TagSet

theorem mem_keys_iff (t : TagSet) (k : String) :
    k ∈ Keys t ↔ ∃ v, (k, v) ∈ t := by
  constructor
  · intro h
    obtain ⟨⟨a, b⟩, hab, rfl⟩ := List.mem_map.mp h
    exact ⟨b, hab⟩
  · rintro ⟨v, hv⟩
    exact List.mem_map.mpr ⟨(k, v), hv, rfl⟩

theorem tlookup_append (a b : TagSet) (k : String) :
    tlookup (a ++ b) k =
      match tlookup a k with
      | some v => some v
      | none => tlookup b k := by
  induction a with
  | nil => simp
  | cons kv t ih =>
    obtain ⟨k', v⟩ := kv
    by_cases hk : k' = k <;> simp [hk, ih]

theorem tlookup_mapInsert (m : TagSet) (k1 v1 : String) (k : String) :
    tlookup (m.mapInsert k1 v1) k = if k1 = k then some v1 else tlookup m k := by
  unfold mapInsert
  rw [tlookup_append]
  rw [tlookup_filterKey (fun x => decide (x ≠ k1))]
  by_cases hk : k1 = k
  · subst hk
    simp
  · have : k ≠ k1 := fun h => hk h.symm
    simp [this, hk]
    cases tlookup m k <;> simp [hk]

theorem containsKey_eq_false (t : TagSet) (k : String) (h : k ∉ Keys t) :
    containsKey t k = false := by
  cases hc : containsKey t k
  · rfl
  · exact absurd ((containsKey_iff ..).mp hc) h

theorem tlookup_upsertAll (s pairs : TagSet) (k : String) (hwf : WF pairs) :
    tlookup (s.upsertAll pairs) k =
      if containsKey pairs k then tlookup pairs k else tlookup s k := by
  induction pairs generalizing s with
  | nil => simp [upsertAll]
  | cons kv t ih =>
    obtain ⟨k1, v1⟩ := kv
    have hwf' : WF t := (List.nodup_cons.mp hwf).2
    have hk1 : k1 ∉ Keys t := (List.nodup_cons.mp hwf).1
    have hstep : (s.mapInsert k1 v1).upsertAll t = upsertAll (s.mapInsert k1 v1) t := rfl
    by_cases hk : k1 = k
    · subst hk
      have hc : containsKey t k1 = false := containsKey_eq_false t k1 hk1
      simp [upsertAll] at ih ⊢
      rw [ih _ hwf']
      simp [hc, tlookup_mapInsert]
    · simp [upsertAll] at ih ⊢
      rw [ih _ hwf']
      by_cases hc : containsKey t k
      · simp [hc, hk]
      · simp [hc, hk, tlookup_mapInsert]

theorem mapInsert_eq_append (m : TagSet) (k v : String) (h : k ∉ Keys m) :
    m.mapInsert k v = m ++ [(k, v)] := by
  unfold mapInsert
  congr 1
  apply List.filter_eq_self.mpr
  intro kv hkv
  simp only [decide_eq_true_eq]
  rintro rfl
  exact h ((mem_keys_iff ..).mpr ⟨kv.2, by simpa using hkv⟩)

theorem foldl_mapInsert (l : TagSet) (m : TagSet)
    (hdisj : ∀ x ∈ Keys l, x ∉ Keys m) (hwf : WF l) :
    l.foldl (fun s kv => s.mapInsert kv.1 kv.2) m = m ++ l := by
  induction l generalizing m with
  | nil => simp
  | cons kv t ih =>
    obtain ⟨k, v⟩ := kv
    have hkm : k ∉ Keys m := hdisj k (by simp [Keys])
    have hwf' : WF t := (List.nodup_cons.mp hwf).2
    have hkt : k ∉ Keys t := (List.nodup_cons.mp hwf).1
    have hdisj' : ∀ x ∈ Keys t, x ∉ Keys (m ++ [(k, v)]) := by
      intro x hx
      simp only [Keys, List.map_append, List.mem_append, List.map_cons]
      rintro (hxm | hxk)
      · exact hdisj x (by simp [Keys] at hx ⊢; tauto) hxm
      · simp at hxk
        subst hxk
        exact hkt hx
    calc ((k, v) :: t).foldl (fun s kv => s.mapInsert kv.1 kv.2) m
        = t.foldl (fun s kv => s.mapInsert kv.1 kv.2) (m.mapInsert k v) := by simp
      _ = (m ++ [(k, v)]) ++ t := by rw [mapInsert_eq_append m k v hkm, ih _ hdisj' hwf']
      _ = m ++ ((k, v) :: t) := by simp

theorem New_eq_self (l : TagSet) (hwf : WF l) : New l = l := by
  have h := foldl_mapInsert l [] (by simp [Keys]) hwf
  simpa [New] using h

theorem tlookup_Removed (old new : TagSet) (k : String) :
    tlookup (Removed old new) k =
      if containsKey new k then none else tlookup old k := by
  unfold Removed
  rw [tlookup_filterKey (fun x => !(new.containsKey x))]
  cases h : containsKey new k <;> simp [h]

theorem tlookup_IgnoreAws (t : TagSet) (k : String) :
    tlookup (IgnoreAws t) k = if awsReserved k then none else tlookup t k := by
  unfold IgnoreAws
  rw [tlookup_filterKey (fun x => !(awsReserved x))]
  cases h : awsReserved k <;> simp [h]

theorem tlookup_Updated (old new : TagSet) (k : String) (hwf : WF new) :
    tlookup (Updated old new) k =
      match tlookup new k with
      | some v => if tlookup old k = some v then none else some v
      | none => none := by
  unfold Updated
  rw [tlookup_filter_of_wf _ _ _ hwf]
  cases h : tlookup new k with
  | none => rfl
  | some v =>
    by_cases ho : tlookup old k = some v <;> simp [ho]

end TagSet

namespace TagSet

theorem IgnoreAws_eq_self (t : TagSet) (h : ∀ kv ∈ t, awsReserved kv.1 = false) :
    IgnoreAws t = t := by
  apply List.filter_eq_self.mpr
  intro kv hkv
  simp [h kv hkv]

theorem not_lt_length_eq_nil (l : TagSet) (h : ¬ 0 < l.length) : l = [] := by
  simpa using Nat.le_zero.mp (Nat.not_lt.mp h)

end TagSet

theorem updateTags_trace (identifier : String) (om nm : List (String × String)) :
    UpdateTags identifier om nm none none =
      ((if 0 < ((TagSet.New om).Removed (TagSet.New nm)).length then
          [RemoteCall.untagCall identifier
            ((TagSet.New om).Removed (TagSet.New nm)).IgnoreAws.Keys]
        else []) ++
        (if 0 < ((TagSet.New om).Updated (TagSet.New nm)).length then
          [RemoteCall.tagCall identifier
            ((TagSet.New om).Updated (TagSet.New nm)).IgnoreAws]
        else []), none) := by
  by_cases h1 : 0 < ((TagSet.New om).Removed (TagSet.New nm)).length <;>
    by_cases h2 : 0 < ((TagSet.New om).Updated (TagSet.New nm)).length <;>
      simp [UpdateTags, updateTagsTagPhase, h1, h2]

@[simp]
theorem applyCalls_nil (s : TagSet) : applyCalls s [] = s := rfl

@[simp]
theorem applyCalls_cons (s : TagSet) (c : RemoteCall) (cs : List RemoteCall) :
    applyCalls s (c :: cs) = applyCalls (applyCall s c) cs := rfl

theorem applyCalls_append (s : TagSet) (a b : List RemoteCall) :
    applyCalls s (a ++ b) = applyCalls (applyCalls s a) b :=
  List.foldl_append ..

theorem filter_ignoreAws_nil_keys (s : TagSet) :
    (s.filter fun kv => !((TagSet.IgnoreAws []).Keys.contains kv.1)) = s :=
  List.filter_eq_self.mpr fun _ _ => rfl

theorem applyCalls_updateTags (s : TagSet) (identifier : String)
    (om nm : List (String × String)) :
    applyCalls s (UpdateTags identifier om nm none none).1 =
      TagSet.upsertAll
        (s.filter fun kv =>
          !((((TagSet.New om).Removed (TagSet.New nm)).IgnoreAws.Keys).contains kv.1))
        ((TagSet.New om).Updated (TagSet.New nm)).IgnoreAws := by
  rw [updateTags_trace]
  by_cases h1 : 0 < ((TagSet.New om).Removed (TagSet.New nm)).length <;>
    by_cases h2 : 0 < ((TagSet.New om).Updated (TagSet.New nm)).length
  · rw [if_pos h1, if_pos h2]
    rfl
  · rw [if_pos h1, if_neg h2, TagSet.not_lt_length_eq_nil _ h2]
    rfl
  · rw [if_neg h1, if_pos h2, TagSet.not_lt_length_eq_nil _ h1,
      filter_ignoreAws_nil_keys]
    rfl
  · rw [if_neg h1, if_neg h2, TagSet.not_lt_length_eq_nil _ h1,
      TagSet.not_lt_length_eq_nil _ h2, filter_ignoreAws_nil_keys]
    rfl

namespace TagSet

theorem keys_Removed_not_in_new (old new : TagSet) (k : String)
    (hk : k ∈ Keys (old.Removed new)) : containsKey new k = false := by
  obtain ⟨w, hw⟩ := (mem_keys_iff ..).mp hk
  have h2 := (List.mem_filter.mp hw).2
  simpa using h2

theorem converge_pointwise (old new : TagSet) (hwn : WF new)
    (hro : ∀ kv ∈ old, awsReserved kv.1 = false)
    (hrn : ∀ kv ∈ new, awsReserved kv.1 = false) (k : String) :
    tlookup
      (upsertAll
        (old.filter fun kv => !(((old.Removed new).IgnoreAws.Keys).contains kv.1))
        (old.Updated new).IgnoreAws) k = tlookup new k := by
  have hRid : (old.Removed new).IgnoreAws = old.Removed new :=
    IgnoreAws_eq_self _ fun kv hkv => hro kv (List.mem_filter.mp hkv).1
  have hUid : (old.Updated new).IgnoreAws = old.Updated new :=
    IgnoreAws_eq_self _ fun kv hkv => hrn kv (List.mem_filter.mp hkv).1
  rw [hRid, hUid]
  have hwU : WF (old.Updated new) := wf_filter _ _ hwn
  rw [tlookup_upsertAll _ _ _ hwU]
  rw [tlookup_filterKey (fun x => !((old.Removed new).Keys.contains x)) old k]
  have hU := tlookup_Updated old new k hwn
  cases hn : tlookup new k with
  | none =>
    have hUk : tlookup (old.Updated new) k = none := by rw [hU, hn]
    have hckU : containsKey (old.Updated new) k = false :=
      containsKey_eq_false _ _ ((tlookup_eq_none_iff ..).mp hUk)
    cases ho : tlookup old k with
    | none =>
      cases hc : (old.Removed new).Keys.contains k <;> simp [hckU, hc, ho]
    | some w =>
      have hcnew : containsKey new k = false :=
        containsKey_eq_false _ _ ((tlookup_eq_none_iff ..).mp hn)
      have hmemR : (k, w) ∈ old.Removed new :=
        List.mem_filter.mpr ⟨tlookup_mem _ _ _ ho, by simp [hcnew]⟩
      have hcmem : k ∈ (old.Removed new).Keys := (mem_keys_iff ..).mpr ⟨w, hmemR⟩
      simp [hckU, hcmem]
  | some v =>
    by_cases ho : tlookup old k = some v
    · have hUk : tlookup (old.Updated new) k = none := by
        rw [hU, hn]
        simp [ho]
      have hckU : containsKey (old.Updated new) k = false :=
        containsKey_eq_false _ _ ((tlookup_eq_none_iff ..).mp hUk)
      have hcnew : containsKey new k = true :=
        (containsKey_iff ..).mpr ((mem_keys_iff ..).mpr ⟨v, tlookup_mem _ _ _ hn⟩)
      have hcmem : k ∉ (old.Removed new).Keys := by
        intro hmem
        have hfalse := keys_Removed_not_in_new old new k hmem
        rw [hcnew] at hfalse
        cases hfalse
      simp [hckU, hcmem, ho]
    · have hUk : tlookup (old.Updated new) k = some v := by
        rw [hU, hn]
        simp [ho]
      have hckU : containsKey (old.Updated new) k = true :=
        (containsKey_iff ..).mpr ((mem_keys_iff ..).mpr ⟨v, tlookup_mem _ _ _ hUk⟩)
      simp [hckU, hUk]

end TagSet

namespace TagSet

theorem wf_mapInsert (m : TagSet) (k v : String) (hwf : WF m) :
    WF (m.mapInsert k v) := by
  unfold mapInsert WF Keys
  rw [List.map_append]
  rw [List.nodup_append]
  refine ⟨wf_filter _ m hwf, List.nodup_singleton k, ?_⟩
  intro x hx
  obtain ⟨⟨a, b⟩, hab, rfl⟩ := List.mem_map.mp hx
  have := (List.mem_filter.mp hab).2
  simp only [decide_eq_true_eq] at this
  simpa using this

theorem wf_New (l : List (String × String)) : WF (New l) := by
  suffices h : ∀ m : TagSet, WF m →
      WF (l.foldl (fun s kv => s.mapInsert kv.1 kv.2) m) from
    h [] (List.nodup_nil)
  induction l with
  | nil => intro m hm; exact hm
  | cons kv t ih =>
    intro m hm
    exact ih _ (wf_mapInsert m kv.1 kv.2 hm)

theorem Removed_self (t : TagSet) : t.Removed t = [] := by
  apply List.filter_eq_nil_iff.mpr
  intro kv hkv
  have : containsKey t kv.1 = true :=
    (containsKey_iff ..).mpr ((mem_keys_iff ..).mpr ⟨kv.2, by simpa using hkv⟩)
  simp [this]

theorem Updated_self (t : TagSet) (hwf : WF t) : t.Updated t = [] := by
  apply List.filter_eq_nil_iff.mpr
  intro kv hkv
  have : tlookup t kv.1 = some kv.2 := tlookup_of_mem t kv.1 kv.2 hwf (by simpa using hkv)
  simp [this]

theorem mem_keys_ignoreAws_removed (old new : TagSet) (k : String) :
    k ∈ Keys (old.Removed new).IgnoreAws ↔
      (k ∈ Keys old ∧ k ∉ Keys new ∧ awsReserved k = false) := by
  constructor
  · intro hk
    obtain ⟨v, hv⟩ := (mem_keys_iff ..).mp hk
    obtain ⟨hR, hres⟩ := List.mem_filter.mp hv
    obtain ⟨hold, hcon⟩ := List.mem_filter.mp hR
    refine ⟨(mem_keys_iff ..).mpr ⟨v, hold⟩, ?_, by simpa using hres⟩
    intro hkn
    have h1 := (containsKey_iff ..).mpr hkn
    have h2 : containsKey new k = false := by simpa using hcon
    rw [h1] at h2
    cases h2
  · rintro ⟨hko, hkn, hres⟩
    obtain ⟨v, hv⟩ := (mem_keys_iff ..).mp hko
    refine (mem_keys_iff ..).mpr ⟨v, List.mem_filter.mpr ⟨List.mem_filter.mpr ⟨hv, ?_⟩, ?_⟩⟩
    · simp [containsKey_eq_false new k hkn]
    · simp [hres]

theorem mem_ignoreAws_updated (old new : TagSet) (hwn : WF new) (k v : String) :
    (k, v) ∈ (old.Updated new).IgnoreAws ↔
      (tlookup new k = some v ∧ tlookup old k ≠ some v ∧ awsReserved k = false) := by
  constructor
  · intro h
    obtain ⟨hU, hres⟩ := List.mem_filter.mp h
    obtain ⟨hnew, hneq⟩ := List.mem_filter.mp hU
    refine ⟨tlookup_of_mem new k v hwn hnew, ?_, by simpa using hres⟩
    simpa using hneq
  · rintro ⟨hnew, hneq, hres⟩
    refine List.mem_filter.mpr ⟨List.mem_filter.mpr ⟨tlookup_mem new k v hnew, ?_⟩, ?_⟩
    · simpa using hneq
    · simp [hres]

theorem mem_ignoreAws_reserved_false (t : TagSet) (kv : String × String)
    (h : kv ∈ t.IgnoreAws) : awsReserved kv.1 = false := by
  simpa using (List.mem_filter.mp h).2

theorem mem_keys_ignoreAws_reserved_false (t : TagSet) (k : String)
    (h : k ∈ Keys t.IgnoreAws) : awsReserved k = false := by
  obtain ⟨v, hv⟩ := (mem_keys_iff ..).mp h
  exact mem_ignoreAws_reserved_false t (k, v) hv

end TagSet

theorem updateTags_calls_shape (identifier : String) (om nm : List (String × String))
    (ur tr : Option String) :
    ∀ c ∈ (UpdateTags identifier om nm ur tr).1,
      c = RemoteCall.untagCall identifier
            ((TagSet.New om).Removed (TagSet.New nm)).IgnoreAws.Keys ∨
      c = RemoteCall.tagCall identifier
            ((TagSet.New om).Updated (TagSet.New nm)).IgnoreAws := by
  unfold UpdateTags updateTagsTagPhase
  by_cases h1 : 0 < ((TagSet.New om).Removed (TagSet.New nm)).length <;>
    by_cases h2 : 0 < ((TagSet.New om).Updated (TagSet.New nm)).length <;>
      cases ur <;> cases tr <;> simp [h1, h2] <;> tauto

theorem updateTags_tagCall_mem (identifier : String) (om nm : List (String × String))
    (tr : Option String)
    (h : 0 < ((TagSet.New om).Updated (TagSet.New nm)).length) :
    RemoteCall.tagCall identifier ((TagSet.New om).Updated (TagSet.New nm)).IgnoreAws ∈
      (UpdateTags identifier om nm none tr).1 := by
  unfold UpdateTags updateTagsTagPhase
  by_cases h1 : 0 < ((TagSet.New om).Removed (TagSet.New nm)).length <;>
    cases tr <;> simp [h1, h]

/-- C3: if the removed set is non-empty and the untag remote call fails,
`UpdateTags` returns an untag-phase-tagged error wrapping the underlying
transport error and carrying the resource identifier, and the tag remote
call is never issued (the trace is the single untag call); a failure of the
tag remote call is returned as a tag-phase-tagged error. -/
theorem updateTags_untag_abort (identifier : String) (om nm : List (String × String))
    (e : String) :
    (∀ tr, 0 < ((TagSet.New om).Removed (TagSet.New nm)).length →
      UpdateTags identifier om nm (some e) tr =
        ([RemoteCall.untagCall identifier
            ((TagSet.New om).Removed (TagSet.New nm)).IgnoreAws.Keys],
          some (ReconcileError.untagError identifier e))) ∧
    (0 < ((TagSet.New om).Updated (TagSet.New nm)).length →
      (UpdateTags identifier om nm none (some e)).2 =
        some (ReconcileError.tagError identifier e)) := by
  constructor
  · intro tr h
    unfold UpdateTags
    simp [h]
  · intro h
    unfold UpdateTags updateTagsTagPhase
    by_cases h1 : 0 < ((TagSet.New om).Removed (TagSet.New nm)).length <;> simp [h1, h]

theorem updateTags_untag_abort_witness :
    UpdateTags "arn:r" [("a", "1")] [] (some "boom") (some "later") =
      ([RemoteCall.untagCall "arn:r" ["a"]],
        some (ReconcileError.untagError "arn:r" "boom")) ∧
    (UpdateTags "arn:r" [] [("b", "2")] none (some "boom")).2 =
      some (ReconcileError.tagError "arn:r" "boom") := by
  constructor
  · have h := (updateTags_untag_abort "arn:r" [("a", "1")] [] "boom").1 (some "later")
      (by decide)
    rw [h]
    decide
  · exact (updateTags_untag_abort "arn:r" [] [("b", "2")] "boom").2 (by decide)

/-- C5: reconciling a tag set to itself issues zero remote calls and
returns success; in general, whenever both the removed and updated sets are
empty, `UpdateTags` is a no-op success. -/
theorem updateTags_noop (identifier : String) (t : List (String × String))
    (ur tr : Option String) :
    UpdateTags identifier t t ur tr = ([], none) ∧
    (∀ om nm, (TagSet.New om).Removed (TagSet.New nm) = [] →
      (TagSet.New om).Updated (TagSet.New nm) = [] →
      UpdateTags identifier om nm ur tr = ([], none)) := by
  constructor
  · have h1 := TagSet.Removed_self (TagSet.New t)
    have h2 := TagSet.Updated_self (TagSet.New t) (TagSet.wf_New t)
    simp [UpdateTags, updateTagsTagPhase, h1, h2]
  · intro om nm h1 h2
    simp [UpdateTags, updateTagsTagPhase, h1, h2]

theorem updateTags_noop_witness :
    UpdateTags "arn:r" [("env", "dev")] [("env", "dev")] none none = ([], none) ∧
    UpdateTags "arn:r" [("x", "1")] [("x", "1")] (some "boom") (some "boom") =
      ([], none) :=
  ⟨(updateTags_noop "arn:r" [("env", "dev")] none none).1,
    (updateTags_noop "arn:r" [("x", "1")] (some "boom") (some "boom")).2
      [("x", "1")] [("x", "1")] (by decide) (by decide)⟩

/-- C7: the probes built by `statusDeliveryStream` and
`statusDeliveryStreamEncryptionConfiguration` encode a not-found finder
outcome as `(absent, "", nil)` rather than as an error, and return a
non-nil error exactly for unexpected (transport) finder failures. -/
theorem status_not_found_encoding :
    statusDeliveryStream FindResult.notFound = (none, "", none) ∧
    statusDeliveryStreamEncryptionConfiguration FindResult.notFound = (none, "", none) ∧
    (∀ r e, (statusDeliveryStream r).2.2 = some e → r = FindResult.transportError e) ∧
    (∀ r e, (statusDeliveryStreamEncryptionConfiguration r).2.2 = some e →
      r = FindResult.transportError e) := by
  refine ⟨rfl, rfl, ?_, ?_⟩
  · rintro r e h
    cases r with
    | found output => simp [statusDeliveryStream] at h
    | notFound => simp [statusDeliveryStream] at h
    | transportError m =>
      simp only [statusDeliveryStream] at h
      obtain rfl := Option.some.injEq .. ▸ h
      rfl
  · rintro r e h
    cases r with
    | found output => simp [statusDeliveryStreamEncryptionConfiguration] at h
    | notFound => simp [statusDeliveryStreamEncryptionConfiguration] at h
    | transportError m =>
      simp only [statusDeliveryStreamEncryptionConfiguration] at h
      obtain rfl := Option.some.injEq .. ▸ h
      rfl

theorem status_not_found_encoding_witness :
    (FindResult.transportError "x" : FindResult DeliveryStreamDescription) =
      FindResult.transportError "x" :=
  status_not_found_encoding.2.2.1 (FindResult.transportError "x") "x" rfl

/-- C8: one invocation of `UpdateTags` issues at most one untag call and at
most one tag call, the untag call (if any) strictly before the tag call,
with no internal retry of either: the trace splits as an optional single
untag call followed by an optional single tag call. -/
theorem updateTags_call_bound (identifier : String) (om nm : List (String × String))
    (ur tr : Option String) :
    ∃ u v : List RemoteCall,
      (UpdateTags identifier om nm ur tr).1 = u ++ v ∧
      (u = [] ∨ ∃ ks, u = [RemoteCall.untagCall identifier ks]) ∧
      (v = [] ∨ ∃ ps, v = [RemoteCall.tagCall identifier ps]) := by
  by_cases h1 : 0 < ((TagSet.New om).Removed (TagSet.New nm)).length
  · cases ur with
    | some e =>
      exact ⟨[RemoteCall.untagCall identifier
          ((TagSet.New om).Removed (TagSet.New nm)).IgnoreAws.Keys], [],
        by simp [UpdateTags, h1], Or.inr ⟨_, rfl⟩, Or.inl rfl⟩
    | none =>
      by_cases h2 : 0 < ((TagSet.New om).Updated (TagSet.New nm)).length
      · refine ⟨[RemoteCall.untagCall identifier
            ((TagSet.New om).Removed (TagSet.New nm)).IgnoreAws.Keys],
          [RemoteCall.tagCall identifier
            ((TagSet.New om).Updated (TagSet.New nm)).IgnoreAws],
          ?_, Or.inr ⟨_, rfl⟩, Or.inr ⟨_, rfl⟩⟩
        cases tr <;> simp [UpdateTags, updateTagsTagPhase, h1, h2]
      · refine ⟨[RemoteCall.untagCall identifier
            ((TagSet.New om).Removed (TagSet.New nm)).IgnoreAws.Keys], [],
          ?_, Or.inr ⟨_, rfl⟩, Or.inl rfl⟩
        cases tr <;> simp [UpdateTags, updateTagsTagPhase, h1, h2]
  · by_cases h2 : 0 < ((TagSet.New om).Updated (TagSet.New nm)).length
    · refine ⟨[], [RemoteCall.tagCall identifier
          ((TagSet.New om).Updated (TagSet.New nm)).IgnoreAws],
        ?_, Or.inl rfl, Or.inr ⟨_, rfl⟩⟩
      cases tr <;> simp [UpdateTags, updateTagsTagPhase, h1, h2]
    · refine ⟨[], [], ?_, Or.inl rfl, Or.inl rfl⟩
      cases tr <;> simp [UpdateTags, updateTagsTagPhase, h1, h2]

/-- C9: a probe whose first two invocations report a pending label (in
neither the target nor the failure set) and whose third reports a target
label with snapshot `S` makes the poll loop stop after exactly 3 probe
invocations and return `S` as the success result. -/
theorem pollLoop_three_probes {σ : Type} (probe : Nat → Option σ × String × Option String)
    (targets failures : List String) (fuel : Nat) (s0 s1 : Option σ) (S : σ)
    (l0 l1 lt : String)
    (h0 : probe 0 = (s0, l0, none)) (h1 : probe 1 = (s1, l1, none))
    (h2 : probe 2 = (some S, lt, none))
    (ht0 : targets.contains l0 = false) (hf0 : failures.contains l0 = false)
    (ht1 : targets.contains l1 = false) (hf1 : failures.contains l1 = false)
    (ht : targets.contains lt = true) (hfuel : 3 ≤ fuel) :
    pollLoop probe targets failures fuel 0 = PollOutcome.target (some S) 3 := by
  obtain ⟨f, rfl⟩ : ∃ f, fuel = f + 3 := ⟨fuel - 3, by omega⟩
  show pollLoop probe targets failures (f + 2 + 1) 0 = PollOutcome.target (some S) 3
  rw [pollLoop, h0]
  simp only [ht0, hf0, Bool.false_eq_true, if_false]
  show pollLoop probe targets failures (f + 1 + 1) 1 = PollOutcome.target (some S) 3
  rw [pollLoop, h1]
  simp only [ht1, hf1, Bool.false_eq_true, if_false]
  show pollLoop probe targets failures (f + 0 + 1) 2 = PollOutcome.target (some S) 3
  have htm : lt ∈ targets := List.elem_iff.mp ht
  rw [pollLoop, h2]
  simp [htm]

theorem pollLoop_three_probes_witness :
    pollLoop
      (fun n =>
        if n = 0 then ((some 0 : Option Nat), "CREATING", none)
        else if n = 1 then (some 0, "CREATING", none)
        else (some 7, "ACTIVE", none))
      ["ACTIVE"] ["DELETING"] 5 0 = PollOutcome.target (some 7) 3 :=
  pollLoop_three_probes _ ["ACTIVE"] ["DELETING"] 5 (some 0) (some 0) 7
    "CREATING" "CREATING" "ACTIVE" rfl rfl rfl (by decide) (by decide) (by decide)
    (by decide) (by decide) (by omega)

/-- C10: converting a TagSet to the service tag-list representation with
`Tags` and back with `KeyValueTags` yields the same TagSet. -/
theorem tags_round_trip (t : TagSet) (hwf : TagSet.WF t) :
    KeyValueTags (Tags t) = t := by
  have hmap : (Tags t).map (fun tag => (StringValue tag.Key, StringValue tag.Value)) = t := by
    unfold Tags TagSet.toMap
    rw [List.map_map]
    exact List.map_id'' (fun x => rfl) t
  unfold KeyValueTags
  rw [hmap, TagSet.New_eq_self t hwf]

theorem tags_round_trip_witness :
    KeyValueTags (Tags [("env", "dev"), ("team", "x")]) = [("env", "dev"), ("team", "x")] :=
  tags_round_trip [("env", "dev"), ("team", "x")] (by decide)

/-- C1 counterexample: reconciling `{aws:x: 1}` to `{}` leaves the remote
store at `{aws:x: 1}` (the untag call carries no keys because `UpdateTags`
filters the reserved `aws:` namespace internally), so reading back does not
yield the desired tag set. -/
theorem updateTags_convergence_cex :
    TagSet.tlookup
      (applyCalls [("aws:x", "1")]
        (UpdateTags "arn:r" [("aws:x", "1")] [] none none).1) "aws:x" = some "1" ∧
    TagSet.tlookup ([] : TagSet) "aws:x" = none := by
  decide

/-- C1 (amended): for well-formed tag sets none of whose keys carries the
reserved `aws:` namespace, running `UpdateTags` from `old` to `new` against
the stipulated remote store initially holding `old` succeeds and leaves the
store reading back exactly `new`. -/
theorem updateTags_convergence (identifier : String) (old new : TagSet)
    (hwo : TagSet.WF old) (hwn : TagSet.WF new)
    (hro : ∀ kv ∈ old, TagSet.awsReserved kv.1 = false)
    (hrn : ∀ kv ∈ new, TagSet.awsReserved kv.1 = false) :
    (UpdateTags identifier old new none none).2 = none ∧
    ∀ k, TagSet.tlookup (applyCalls old (UpdateTags identifier old new none none).1) k =
      TagSet.tlookup new k := by
  constructor
  · rw [updateTags_trace]
  · intro k
    rw [applyCalls_updateTags, TagSet.New_eq_self old hwo, TagSet.New_eq_self new hwn]
    exact TagSet.converge_pointwise old new hwn hro hrn k

theorem updateTags_convergence_witness :
    (UpdateTags "arn:r" [("env", "dev"), ("temp", "1")] [("env", "prod"), ("team", "x")]
        none none).2 = none ∧
    TagSet.tlookup
      (applyCalls [("env", "dev"), ("temp", "1")]
        (UpdateTags "arn:r" [("env", "dev"), ("temp", "1")] [("env", "prod"), ("team", "x")]
          none none).1) "env" =
      TagSet.tlookup [("env", "prod"), ("team", "x")] "env" :=
  ⟨(updateTags_convergence "arn:r" [("env", "dev"), ("temp", "1")]
      [("env", "prod"), ("team", "x")] (by decide) (by decide) (by decide) (by decide)).1,
    (updateTags_convergence "arn:r" [("env", "dev"), ("temp", "1")]
      [("env", "prod"), ("team", "x")] (by decide) (by decide) (by decide) (by decide)).2 "env"⟩

/-- C2 counterexample: for `old = {aws:a: 1, b: 2}`, `new = {}` the untag
call carries `[b]`, not `keys(old) - keys(new) = [aws:a, b]`. -/
theorem updateTags_plan_cex :
    (UpdateTags "arn:r2" [("aws:a", "1"), ("b", "2")] [] none none).1 =
      [RemoteCall.untagCall "arn:r2" ["b"]] ∧
    TagSet.Keys ((TagSet.New [("aws:a", "1"), ("b", "2")]).Removed (TagSet.New [])) =
      ["aws:a", "b"] ∧
    "aws:a" ∉ (["b"] : List String) := by
  decide

/-- C2 (amended): for well-formed tag sets, the key set carried by the
untag call is `keys(old) - keys(new)` minus the reserved `aws:` namespace,
and the pair set carried by the tag call is the updated set
`{(k, new[k]) : old[k] != new[k]}` minus the reserved `aws:` namespace. -/
theorem updateTags_plan (identifier : String) (old new : TagSet)
    (hwo : TagSet.WF old) (hwn : TagSet.WF new) (ur tr : Option String) :
    ∀ c ∈ (UpdateTags identifier old new ur tr).1,
      (∀ i ks, c = RemoteCall.untagCall i ks →
        i = identifier ∧
        ∀ k, k ∈ ks ↔
          (k ∈ TagSet.Keys old ∧ k ∉ TagSet.Keys new ∧ TagSet.awsReserved k = false)) ∧
      (∀ i ps, c = RemoteCall.tagCall i ps →
        i = identifier ∧
        ∀ k v, (k, v) ∈ ps ↔
          (TagSet.tlookup new k = some v ∧ TagSet.tlookup old k ≠ some v ∧
            TagSet.awsReserved k = false)) := by
  intro c hc
  rcases updateTags_calls_shape identifier old new ur tr c hc with rfl | rfl
  · constructor
    · intro i ks h
      injection h with h1 h2
      subst h1
      subst h2
      refine ⟨rfl, ?_⟩
      intro k
      rw [TagSet.New_eq_self old hwo, TagSet.New_eq_self new hwn]
      exact TagSet.mem_keys_ignoreAws_removed old new k
    · intro i ps h
      exact absurd h (by simp)
  · constructor
    · intro i ks h
      exact absurd h (by simp)
    · intro i ps h
      injection h with h1 h2
      subst h1
      subst h2
      refine ⟨rfl, ?_⟩
      intro k v
      rw [TagSet.New_eq_self old hwo, TagSet.New_eq_self new hwn]
      exact TagSet.mem_ignoreAws_updated old new hwn k v

theorem updateTags_plan_witness :
    "temp" ∈ (["temp"] : List String) ↔
      ("temp" ∈ TagSet.Keys [("env", "dev"), ("temp", "1")] ∧
        "temp" ∉ TagSet.Keys [("env", "dev")] ∧
        TagSet.awsReserved "temp" = false) :=
  ((updateTags_plan "arn:r" [("env", "dev"), ("temp", "1")] [("env", "dev")]
      (by decide) (by decide) none none
      (RemoteCall.untagCall "arn:r" ["temp"]) (by decide)).1
    "arn:r" ["temp"] rfl).2 "temp"

/-- C4 counterexample: for `old = {}`, `new = {aws:tag: v}` the updated set
is `{aws:tag: v}`, yet the tag call issued by `UpdateTags` carries the
empty pair set — the reserved-namespace exclusion happens inside
`UpdateTags` itself, not only in callers. -/
theorem updateTags_reserved_cex :
    (UpdateTags "arn:r3" [] [("aws:tag", "v")] none none).1 =
      [RemoteCall.tagCall "arn:r3" []] ∧
    (TagSet.New []).Updated (TagSet.New [("aws:tag", "v")]) = [("aws:tag", "v")] ∧
    ("aws:tag", "v") ∉ ([] : TagSet) := by
  decide

/-- C4 (amended): `UpdateTags` does special-case key names internally: it
applies the reserved-namespace exclusion (`IgnoreAws`) to both payloads, so
no key carrying the reserved `aws:` namespace ever appears in the key set
sent to the untag call nor in the pair set sent to the tag call. -/
theorem updateTags_reserved_filtered (identifier : String)
    (om nm : List (String × String)) (ur tr : Option String) :
    ∀ c ∈ (UpdateTags identifier om nm ur tr).1,
      (∀ i ks, c = RemoteCall.untagCall i ks →
        ∀ k ∈ ks, TagSet.awsReserved k = false) ∧
      (∀ i ps, c = RemoteCall.tagCall i ps →
        ∀ kv ∈ ps, TagSet.awsReserved kv.1 = false) := by
  intro c hc
  rcases updateTags_calls_shape identifier om nm ur tr c hc with rfl | rfl
  · constructor
    · intro i ks h
      injection h with h1 h2
      subst h1
      subst h2
      intro k hk
      exact TagSet.mem_keys_ignoreAws_reserved_false _ k hk
    · intro i ps h
      exact absurd h (by simp)
  · constructor
    · intro i ks h
      exact absurd h (by simp)
    · intro i ps h
      injection h with h1 h2
      subst h1
      subst h2
      intro kv hkv
      exact TagSet.mem_ignoreAws_reserved_false _ kv hkv

theorem updateTags_reserved_filtered_witness :
    TagSet.awsReserved "b" = false :=
  ((updateTags_reserved_filtered "arn:r" [("aws:a", "1"), ("b", "2")] [] none none
      (RemoteCall.untagCall "arn:r" ["b"]) (by decide)).1
    "arn:r" ["b"] rfl) "b" (by decide)

/-- C6 counterexample: for `old = {aws:k: v}`, `new = {aws:k: ""}` the key
`aws:k` changes from a non-empty to the empty value, yet the tag call
issued by `UpdateTags` carries the empty pair set, so the key does not
appear in the pairs sent to the tag call. -/
theorem updateTags_empty_value_cex :
    (UpdateTags "arn:r4" [("aws:k", "v")] [("aws:k", "")] none none).1 =
      [RemoteCall.tagCall "arn:r4" []] ∧
    ("aws:k", "") ∉ ([] : TagSet) := by
  decide

/-- C6 (amended): for well-formed tag sets and any non-reserved key `k`
whose value changes from a non-empty string to the empty string, `k` never
appears in the key set of any untag call issued by `UpdateTags`, and when
the untag phase succeeds the issued tag call carries the pair `(k, "")`: a
changed-to-empty value is an update, never a removal. -/
theorem updateTags_empty_value_update (identifier : String) (old new : TagSet)
    (hwo : TagSet.WF old) (hwn : TagSet.WF new) (ur tr : Option String) (k v : String)
    (hold : TagSet.tlookup old k = some v) (hv : v ≠ "")
    (hnew : TagSet.tlookup new k = some "")
    (hres : TagSet.awsReserved k = false) :
    (∀ c ∈ (UpdateTags identifier old new ur tr).1,
      ∀ i ks, c = RemoteCall.untagCall i ks → k ∉ ks) ∧
    (∃ ps, RemoteCall.tagCall identifier ps ∈ (UpdateTags identifier old new none tr).1 ∧
      (k, "") ∈ ps) := by
  have hneq : TagSet.tlookup old k ≠ some "" := by
    rw [hold]
    intro hcon
    injection hcon with hcon2
    exact hv hcon2
  have hkU : (k, "") ∈ old.Updated new :=
    List.mem_filter.mpr ⟨TagSet.tlookup_mem new k "" hnew, by simp [hneq]⟩
  constructor
  · intro c hc i ks h
    rcases updateTags_calls_shape identifier old new ur tr c hc with rfl | rfl
    · injection h with h1 h2
      subst h1
      subst h2
      intro hk
      rw [TagSet.New_eq_self old hwo, TagSet.New_eq_self new hwn] at hk
      have hk2 := (TagSet.mem_keys_ignoreAws_removed old new k).mp hk
      exact hk2.2.1 ((TagSet.mem_keys_iff ..).mpr ⟨"", TagSet.tlookup_mem new k "" hnew⟩)
    · exact absurd h (by simp)
  · refine ⟨((TagSet.New old).Updated (TagSet.New new)).IgnoreAws,
      updateTags_tagCall_mem identifier old new tr ?_, ?_⟩
    · rw [TagSet.New_eq_self old hwo, TagSet.New_eq_self new hwn]
      exact List.length_pos.mpr (List.ne_nil_of_mem hkU)
    · rw [TagSet.New_eq_self old hwo, TagSet.New_eq_self new hwn]
      exact (TagSet.mem_ignoreAws_updated old new hwn k "").mpr ⟨hnew, hneq, hres⟩

theorem updateTags_empty_value_update_witness :
    ∃ ps, RemoteCall.tagCall "arn:r" ps ∈
        (UpdateTags "arn:r" [("color", "blue")] [("color", "")] none none).1 ∧
      ("color", "") ∈ ps :=
  (updateTags_empty_value_update "arn:r" [("color", "blue")] [("color", "")]
      (by decide) (by decide) none none "color" "blue"
      (by decide) (by decide) (by decide) (by decide)).2
